import Mathlib

/-
Shallow embedding of the itdepends audio capture / realtime transcription core
(src/itdepends/core/audio_capture.py and src/itdepends/core/transcribe.py).
Floating point sample math is modelled over the reals; machine int16 values are
modelled as integers; byte strings are lists of integers; wall clock times are
rationals.  Python numpy arrays of samples are lists of reals.
-/

namespace ItDepends

/-- Model of numpy.linspace a b n: n evenly spaced points from a to b
inclusive; for n = 1 numpy returns the single point a. -/
noncomputable def linspace (a b : ℝ) (n : Nat) : List ℝ :=
  if n = 1 then [a]
  else (List.range n).map (fun i : ℕ => a + (b - a) * (i : ℝ) / ((n : ℝ) - 1))

/-- Model of the in-place slice multiplication faded[start : start+len] *= factors
used by apply_crossfade: multiply the slice of l starting at start elementwise by
factors, leaving the rest unchanged. -/
noncomputable def scaleSlice (l : List ℝ) (start : Nat) (factors : List ℝ) : List ℝ :=
  l.take start ++ List.zipWith (fun v f => v * f) ((l.drop start).take factors.length) factors
    ++ l.drop (start + factors.length)

/-- Fade length computed by apply_crossfade: int(fade_duration_ms * sample_rate / 1000),
shrunk to len(audio) // 4 when len(audio) <= 2 * fade_samples.  The Python int()
truncation equals floor here because fadeMs and sampleRate are nonnegative. -/
def fadeSamplesOf (len sampleRate : Nat) (fadeMs : ℚ) : Nat :=
  let fs := (⌊fadeMs * sampleRate / 1000⌋).toNat
  if len ≤ 2 * fs then len / 4 else fs

/-- Translation of apply_crossfade (audio_capture.py lines 98-133): linear fade-in
over the first fade_samples entries and linear fade-out over the last fade_samples
entries; empty input and zero fade length are returned unchanged. -/
noncomputable def apply_crossfade (audio : List ℝ) (sampleRate : Nat) (fadeMs : ℚ) : List ℝ :=
  if audio.length = 0 then audio
  else
    let fs := fadeSamplesOf audio.length sampleRate fadeMs
    if fs = 0 then audio
    else
      let fadedIn := scaleSlice audio 0 (linspace 0 1 fs)
      scaleSlice fadedIn (audio.length - fs) (linspace 1 0 fs)

/-- Translation of normalize_audio_level (audio_capture.py lines 61-95): compute the
RMS, scale toward target_rms with a compressive knee when the factor exceeds 2.0,
then apply soft limiting tanh(x * 0.9) * 0.8; all-zero input (rms = 0) and empty
input are returned unchanged. -/
noncomputable def normalize_audio_level (audio : List ℝ) (targetRms : ℝ) : List ℝ :=
  if audio.length = 0 then audio
  else
    let rms := Real.sqrt ((audio.map (fun x => x ^ 2)).sum / audio.length)
    if 0 < rms then
      let f0 := targetRms / rms
      let f := if 2 < f0 then 2 + (f0 - 2) * 0.3 else f0
      (audio.map (fun x => x * f)).map (fun y => Real.tanh (y * 0.9) * 0.8)
    else audio

/-- Root mean square of a sample buffer, written from the words of the
specification of normalize for comparison with the code. -/
noncomputable def rmsOf (audio : List ℝ) : ℝ :=
  Real.sqrt ((audio.map (fun x => x ^ 2)).sum / audio.length)

/-- The normalization scale factor with its compressive knee, written from the
words of the specification: target over rms, kneed when the raw factor
exceeds 2. -/
noncomputable def kneeFactor (target rms : ℝ) : ℝ :=
  if 2 < target / rms then 2 + (target / rms - 2) * 0.3 else target / rms

/-- Translation of mix_audio_streams (audio_capture.py lines 136-184): empty-stream
fallbacks, pad to the longer length with silence, weighted sum, soft compression
tanh(x * 0.8) * 0.85, and a final 0.95 / peak rescale when the peak exceeds 0.95.
The numpy peak np.max(np.abs(mixed)) is modelled as a fold of max over the absolute
values starting from 0, which agrees with numpy on the nonempty lists reaching it. -/
noncomputable def mix_audio_streams (micAudio sysAudio : List ℝ) (micRatio sysRatio : ℝ) :
    List ℝ :=
  if micAudio.length = 0 ∧ sysAudio.length = 0 then []
  else if micAudio.length = 0 then sysAudio.map (fun x => x * sysRatio)
  else if sysAudio.length = 0 then micAudio.map (fun x => x * micRatio)
  else
    let maxLength := max micAudio.length sysAudio.length
    let mic := micAudio ++ List.replicate (maxLength - micAudio.length) 0
    let sys := sysAudio ++ List.replicate (maxLength - sysAudio.length) 0
    let mixed := List.zipWith (fun a b => a * micRatio + b * sysRatio) mic sys
    let limited := mixed.map (fun x => Real.tanh (x * 0.8) * 0.85)
    let peak := (limited.map (fun x => |x|)).foldr max 0
    if 0.95 < peak then limited.map (fun x => x * (0.95 / peak)) else limited

/-- Translation of AudioCapture._record_and_mix_chunk (audio_capture.py lines
227-292), with the two device reads abstracted into the (audio, success) pairs they
produce: return None when both reads failed, crossfade each successful nonempty
stream, mix (a failed stream enters the mixer as the empty array), and apply a
final 5 ms crossfade to a nonempty mix. -/
noncomputable def record_and_mix_chunk (micAudio sysAudio : List ℝ) (micOk sysOk : Bool)
    (sampleRate : Nat) (micRatio sysRatio : ℝ) : Option (List ℝ) :=
  if micOk = false ∧ sysOk = false then none
  else
    let micA := if micOk = true ∧ 0 < micAudio.length
      then apply_crossfade micAudio sampleRate 10 else micAudio
    let sysA := if sysOk = true ∧ 0 < sysAudio.length
      then apply_crossfade sysAudio sampleRate 10 else sysAudio
    let mixed := mix_audio_streams (if micOk = true then micA else [])
      (if sysOk = true then sysA else []) micRatio sysRatio
    if 0 < mixed.length then some (apply_crossfade mixed sampleRate 5) else none

/-- Conversion of one float sample to int16 as done by (x * 32767).astype(np.int16):
scale by 32767 and truncate toward zero (the samples reaching this conversion are
soft limited, so no overflow wrap occurs). -/
noncomputable def sampleToInt16 (x : ℝ) : ℤ :=
  if 0 ≤ x * 32767 then ⌊x * 32767⌋ else ⌈x * 32767⌉

/-- Little-endian byte pair of an int16 value, as produced by numpy tobytes. -/
def int16ToBytesLE (v : ℤ) : List ℤ :=
  [v % 65536 % 256, v % 65536 / 256]

/-- PCM16 little-endian byte string of a list of float samples. -/
noncomputable def pcm16Bytes (audio : List ℝ) : List ℤ :=
  (audio.map (fun x => int16ToBytesLE (sampleToInt16 x))).flatten

/-- One iteration of AudioCapture._continuous_capture (audio_capture.py lines
294-311): record and mix a chunk; when the result is present and nonempty, convert
it to int16 PCM bytes, which are then handed to _send_mixed_audio_data; a cycle
with no mixed audio hands nothing downstream. -/
noncomputable def continuous_capture_cycle (micAudio sysAudio : List ℝ) (micOk sysOk : Bool)
    (sampleRate : Nat) (micRatio sysRatio : ℝ) : Option (List ℤ) :=
  match record_and_mix_chunk micAudio sysAudio micOk sysOk sampleRate micRatio sysRatio with
  | some mixed => if 0 < mixed.length then some (pcm16Bytes mixed) else none
  | none => none

/-- The while loop of AudioCapture._send_mixed_audio_data (audio_capture.py lines
322-334): while the buffer holds at least chunkSize bytes, slice off exactly
chunkSize bytes as one frame forwarded to the transcriber and keep the rest.
Returns the forwarded frames in order together with the residual buffer.  For
chunkSize = 0 the Python loop would never terminate; the model returns immediately,
and every claim about the dispatcher assumes a positive frame size. -/
def drainFrames (chunkSize : Nat) (buf : List ℤ) : List (List ℤ) × List ℤ :=
  if _h : 0 < chunkSize ∧ chunkSize ≤ buf.length then
    let rest := drainFrames chunkSize (buf.drop chunkSize)
    (buf.take chunkSize :: rest.1, rest.2)
  else ([], buf)
termination_by buf.length
decreasing_by simp only [List.length_drop]; omega

/-- Translation of AudioCapture._send_mixed_audio_data (audio_capture.py lines
313-338) under a successful lock acquisition: extend the shared buffer with the
incoming bytes, then drain full frames.  A failed (timed out) lock acquisition
leaves the buffer unchanged and forwards nothing, which the claims cover via the
unchanged-state case. -/
def send_mixed_audio_data (chunkSize : Nat) (buf incoming : List ℤ) :
    List (List ℤ) × List ℤ :=
  drainFrames chunkSize (buf ++ incoming)

/-- A sequence of dispatch cycles: feed each incoming chunk through
send_mixed_audio_data, threading the shared buffer, and collect every frame
forwarded to the transcriber. -/
def runDispatch (chunkSize : Nat) (buf : List ℤ) : List (List ℤ) → List (List ℤ) × List ℤ
  | [] => ([], buf)
  | c :: cs =>
    let r := send_mixed_audio_data chunkSize buf c
    let rest := runDispatch chunkSize r.2 cs
    (r.1 ++ rest.1, rest.2)

/-- Capacity of the bounded chunk ring (transcribe.py line 21). -/
def MAX_CHUNKS : Nat := 1000

/-- Transcript state of RealtimeTranscriber: the accumulated full transcript string
and the bounded deque of (text, timestamp) chunks. -/
structure TranscriberState where
  fullTranscript : String
  chunks : List (String × ℚ)
deriving DecidableEq

/-- The freshly constructed transcript state (transcribe.py lines 29-30). -/
def initialTranscriberState : TranscriberState :=
  { fullTranscript := "", chunks := [] }

/-- The guard of _update_transcript: Python skips text that is falsy (empty) or
str.isspace (nonempty and all whitespace).  Char.isWhitespace stands in for the
Python whitespace class. -/
def isBlankText (s : String) : Bool :=
  s.length == 0 || (decide (s.length ≠ 0) && s.toList.all Char.isWhitespace)

/-- Translation of _update_transcript (transcribe.py lines 85-101): skip blank
text; append the (text, timestamp) pair to the deque, which at capacity
MAX_CHUNKS evicts its oldest entry; extend the full transcript with a space
separator once it is nonempty. -/
def update_transcript (st : TranscriberState) (newText : String) (now : ℚ) :
    TranscriberState :=
  if isBlankText newText then st
  else
    { fullTranscript :=
        if st.fullTranscript ≠ "" then st.fullTranscript ++ " " ++ newText else newText,
      chunks :=
        if st.chunks.length < MAX_CHUNKS then st.chunks ++ [(newText, now)]
        else st.chunks.drop 1 ++ [(newText, now)] }

/-- Translation of get_full_transcript (transcribe.py lines 340-343). -/
def get_full_transcript (st : TranscriberState) : String :=
  st.fullTranscript

/-- Fold a sequence of appended (text, timestamp) chunks through
update_transcript. -/
def appendAll (st : TranscriberState) (ts : List (String × ℚ)) : TranscriberState :=
  ts.foldl (fun s p => update_transcript s p.1 p.2) st

/-- Space-separated concatenation of a list of strings, written from the words of
the specification of fullText for comparison with the state maintained by the
code. -/
def joinSpace : List String → String
  | [] => ""
  | [t] => t
  | t :: ts => t ++ " " ++ joinSpace ts

/-- Outbound websocket protocol messages sent by the transcriber event handlers. -/
inductive WsOut
  | commitMsg
  | clearMsg
deriving DecidableEq

/-- Actions an internal task may take on the connection; the watchdog claims
distinguish sending a message from closing or restarting the connection. -/
inductive ConnAction
  | send (m : WsOut)
  | closeConnection
  | restartConnection
deriving DecidableEq

/-- Inbound events dispatched by _handle_message (transcribe.py lines 187-222),
with the wall clock reading taken at handling time attached to the events that
consult it; malformed JSON and unrecognized types land in the unknown case, which
the handler ignores. -/
inductive InEvent
  | speechStopped
  | committed (now : ℚ)
  | completed (transcript : String) (now : ℚ)
  | delta (text : String)
  | failed
  | unknown
deriving DecidableEq

/-- State consulted by the event handlers: the transcript state and the
processing-start marker driving the stall watchdog. -/
structure HandlerState where
  store : TranscriberState
  processingStart : Option ℚ
deriving DecidableEq

/-- Translation of _handle_message (transcribe.py lines 187-222): speech stopped
sends one commit; committed records the processing-start time; completed stores a
nonblank stripped transcript and clears the marker; delta only surfaces partial
text; failed clears the marker; anything else is ignored. -/
def handle_message (st : HandlerState) : InEvent → HandlerState × List WsOut
  | .speechStopped => (st, [WsOut.commitMsg])
  | .committed now => ({ st with processingStart := some now }, [])
  | .completed transcript now =>
    let st1 := if transcript.trim ≠ ""
      then { st with store := update_transcript st.store transcript.trim now } else st
    ({ st1 with processingStart := none }, [])
  | .delta _ => (st, [])
  | .failed => ({ st with processingStart := none }, [])
  | .unknown => (st, [])

/-- The inbound message loop of _websocket_handler (transcribe.py lines 268-271):
events are handled strictly one after another in arrival order, each send
completing (or being suppressed) inside the handler before the next event is
read.  Outputs are collected in emission order. -/
def processEvents (st : HandlerState) : List InEvent → HandlerState × List WsOut
  | [] => (st, [])
  | e :: es =>
    let r := handle_message st e
    let rest := processEvents r.1 es
    (rest.1, r.2 ++ rest.2)

/-- One wakeup of _check_processing_timeout (transcribe.py lines 224-241): when the
processing-start marker is set (and truthy, mirroring the Python test on a float)
and older than 5 seconds, clear the marker and send one buffer-clear request;
otherwise do nothing.  The watchdog takes no other action on the connection. -/
def check_processing_tick (ps : Option ℚ) (now : ℚ) : Option ℚ × List ConnAction :=
  match ps with
  | some t =>
    if t ≠ 0 ∧ 5 < now - t then (none, [ConnAction.send WsOut.clearMsg])
    else (some t, [])
  | none => (none, [])

/-- Outcome of the HTTP session-creation exchange as seen by
_create_transcription_session: a network error from requests.post, or a response
with its status code, a flag for whether the body parsed as JSON, and the value
found at client_secret.value (absent when either level of nesting is missing). -/
inductive SessionResponse
  | netError
  | response (status : Nat) (bodyOk : Bool) (clientSecretValue : Option String)
deriving DecidableEq

/-- Translation of _create_transcription_session (transcribe.py lines 56-83):
every raised exception returns failure, so a network error, a raise_for_status
on a 4xx or 5xx status, or an unparseable body fails; an absent or falsy (empty)
credential fails; otherwise the extracted ephemeral client secret is returned. -/
def create_transcription_session : SessionResponse → Option String
  | .netError => none
  | .response status bodyOk clientSecretValue =>
    if 400 ≤ status ∧ status < 600 then none
    else if bodyOk = false then none
    else
      match clientSecretValue with
      | none => none
      | some s => if s = "" then none else some s

/-- Result of RealtimeTranscriber.start from the stopped state. -/
inductive StartResult
  | notStarted
  | running (clientSecret : String)
deriving DecidableEq

/-- Translation of start (transcribe.py lines 293-302) from the stopped state:
when session creation fails, return without becoming running and without any
realtime connection attempt; otherwise become running with the extracted
credential and launch the connection thread. -/
def transcriberStart (resp : SessionResponse) : StartResult :=
  match create_transcription_session resp with
  | none => .notStarted
  | some s => .running s

/- Helper lemmas -/

lemma count_commit_handle (st : HandlerState) (e : InEvent) :
    ((handle_message st e).2.count WsOut.commitMsg)
      = if e = InEvent.speechStopped then 1 else 0 := by
  cases e <;> simp [handle_message]

lemma processEvents_count_commit (es : List InEvent) : ∀ st : HandlerState,
    (processEvents st es).2.count WsOut.commitMsg = es.count InEvent.speechStopped := by
  induction es with
  | nil => intro st; simp [processEvents]
  | cons e es ih =>
    intro st
    simp only [processEvents, List.count_append, List.count_cons, ih,
      count_commit_handle]
    by_cases h : e = InEvent.speechStopped <;> simp [h, Nat.add_comm]

lemma drainFrames_spec (F : Nat) (hF : 0 < F) : ∀ (n : Nat) (buf : List ℤ),
    buf.length ≤ n →
    (∀ fr ∈ (drainFrames F buf).1, fr.length = F) ∧ (drainFrames F buf).2.length < F := by
  intro n
  induction n with
  | zero =>
    intro buf hb
    rw [drainFrames]
    have hlen : buf.length = 0 := Nat.le_zero.mp hb
    rw [dif_neg (by omega)]
    exact ⟨by simp, by show buf.length < F; omega⟩
  | succ k ih =>
    intro buf hb
    rw [drainFrames]
    by_cases h : 0 < F ∧ F ≤ buf.length
    · rw [dif_pos h]
      have hdrop : (buf.drop F).length ≤ k := by
        simp only [List.length_drop]; omega
      have hr := ih (buf.drop F) hdrop
      refine ⟨?_, hr.2⟩
      intro fr hfr
      rcases List.mem_cons.mp hfr with hfr | hfr
      · subst hfr; simp [List.length_take]; omega
      · exact hr.1 fr hfr
    · rw [dif_neg h]
      exact ⟨by simp, by show buf.length < F; omega⟩

/- Claim theorems -/

/-- C2: for every dispatch frame size F greater than 0 and every sequence of
mixed-byte chunks appended to the shared buffer, each frame the dispatcher
forwards has length exactly F, and after any number of dispatch cycles the
residual length of the shared buffer is strictly less than F. -/
theorem C2_dispatch_frames (F : Nat) (hF : 0 < F) (buf : List ℤ)
    (hbuf : buf.length < F) (chunks : List (List ℤ)) :
    (∀ fr ∈ (runDispatch F buf chunks).1, fr.length = F)
    ∧ (runDispatch F buf chunks).2.length < F := by
  induction chunks generalizing buf with
  | nil => exact ⟨by simp [runDispatch], by simpa [runDispatch] using hbuf⟩
  | cons c cs ih =>
    simp only [runDispatch, send_mixed_audio_data]
    have h1 := drainFrames_spec F hF (buf ++ c).length (buf ++ c) le_rfl
    have h2 := ih (drainFrames F (buf ++ c)).2 h1.2
    refine ⟨?_, h2.2⟩
    intro fr hfr
    rcases List.mem_append.mp hfr with h | h
    · exact h1.1 fr h
    · exact h2.1 fr h

/-- Witness for C2 at the concrete frame size 2, the empty initial buffer and a
single incoming 3-byte chunk. -/
theorem C2_dispatch_frames_witness :
    0 < 2 ∧ ([] : List ℤ).length < 2
    ∧ ((∀ fr ∈ (runDispatch 2 [] [[1, 2, 3]]).1, fr.length = 2)
        ∧ (runDispatch 2 [] [[1, 2, 3]]).2.length < 2) :=
  ⟨by decide, by decide, C2_dispatch_frames 2 (by decide) [] (by decide) [[1, 2, 3]]⟩

/-- C6: one watchdog wakeup clears the processing-started marker and issues
exactly one buffer-clear request when and only when the marker is set (to a
positive wall clock time) and is older than 5 seconds; a marker reset by a
completion or failure event (now absent) produces no action; and the watchdog
never closes or restarts the connection. -/
theorem C6_watchdog (t now : ℚ) (ht : 0 < t) :
    (check_processing_tick (some t) now
        = (none, [ConnAction.send WsOut.clearMsg]) ↔ 5 < now - t)
    ∧ (¬ 5 < now - t → check_processing_tick (some t) now = (some t, []))
    ∧ check_processing_tick none now = (none, [])
    ∧ (∀ ps a, a ∈ (check_processing_tick ps now).2 → a = ConnAction.send WsOut.clearMsg) := by
  have htne : t ≠ 0 := ne_of_gt ht
  refine ⟨?_, ?_, rfl, ?_⟩
  · constructor
    · intro h
      by_contra hlt
      simp [check_processing_tick, htne, hlt] at h
    · intro h
      simp [check_processing_tick, htne, h]
  · intro h
    simp [check_processing_tick, htne, h]
  · intro ps a ha
    rcases ps with _ | t2
    · simp [check_processing_tick] at ha
    · by_cases h : t2 ≠ 0 ∧ 5 < now - t2
      · simp [check_processing_tick, h] at ha; simp [ha]
      · simp [check_processing_tick, if_neg h] at ha

/-- Witness for C6: marker set at time 1, wakeup at time 7, which is more than 5
seconds later, so the marker is cleared and one buffer-clear request sent. -/
theorem C6_watchdog_witness :
    (0 : ℚ) < 1
    ∧ check_processing_tick (some 1) 7 = (none, [ConnAction.send WsOut.clearMsg]) :=
  ⟨by norm_num, (C6_watchdog 1 7 (by norm_num)).1.mpr (by norm_num)⟩

/-- C7: the inbound event loop is single threaded and processes events in
arrival order; every speech-stopped event produces exactly one commit message,
emitted by its handler before the next event is read, and no other inbound event
produces a commit, so the number of commits sent equals the number of
speech-stopped events received. -/
theorem C7_speech_stopped_commit (st : HandlerState) (es : List InEvent) :
    (processEvents st es).2.count WsOut.commitMsg = es.count InEvent.speechStopped
    ∧ handle_message st InEvent.speechStopped = (st, [WsOut.commitMsg])
    ∧ (∀ e, processEvents st (e :: es)
        = ((processEvents (handle_message st e).1 es).1,
           (handle_message st e).2 ++ (processEvents (handle_message st e).1 es).2)) := by
  exact ⟨processEvents_count_commit es st, rfl, fun _ => rfl⟩

/-- C8 counterexample: a 301 (non-2xx) response whose body carries a credential
makes session creation succeed, while the claim requires bootstrap to fail on
every non-2xx response.  requests raise_for_status only raises on 4xx and 5xx. -/
theorem C8_counterexample :
    create_transcription_session (SessionResponse.response 301 true (some "tok"))
      = some "tok"
    ∧ ¬ (200 ≤ 301 ∧ 301 < 300) := by
  constructor
  · rfl
  · decide

/-- C8 amended: session bootstrap succeeds, making start reach the running state
with the extracted credential, precisely when the exchange has no network error,
the status is not a 4xx or 5xx (the only codes raise_for_status rejects), the
body parses, and the nested credential field is present and nonempty; in every
other case start returns without a connection attempt. -/
theorem C8_bootstrap (resp : SessionResponse) (s : String) :
    transcriberStart resp = StartResult.running s ↔
      ∃ status, resp = SessionResponse.response status true (some s)
        ∧ ¬ (400 ≤ status ∧ status < 600) ∧ s ≠ "" := by
  constructor
  · intro h
    cases resp with
    | netError => simp [transcriberStart, create_transcription_session] at h
    | response status bodyOk secret =>
      by_cases hst : 400 ≤ status ∧ status < 600
      · simp [transcriberStart, create_transcription_session, hst] at h
      · cases bodyOk with
        | false => simp [transcriberStart, create_transcription_session, hst] at h
        | true =>
          cases secret with
          | none => simp [transcriberStart, create_transcription_session, hst] at h
          | some v =>
            by_cases hv : v = ""
            · simp [transcriberStart, create_transcription_session, hst, hv] at h
            · have hvs : v = s := by
                simpa [transcriberStart, create_transcription_session, hst, hv] using h
              subst hvs
              exact ⟨status, rfl, hst, hv⟩
  · rintro ⟨status, rfl, hst, hs⟩
    simp [transcriberStart, create_transcription_session, hst, hs]

lemma isBlankText_false_length (s : String) (h : isBlankText s = false) : s.length ≠ 0 := by
  simp [isBlankText] at h
  exact h.1

lemma joinSpace_cons_cons (a b : String) (ts : List String) :
    joinSpace (a :: b :: ts) = a ++ " " ++ joinSpace (b :: ts) := by
  rfl

lemma joinSpace_append_singleton (ts : List String) (t : String) (h : ts ≠ []) :
    joinSpace (ts ++ [t]) = joinSpace ts ++ " " ++ t := by
  induction ts with
  | nil => exact absurd rfl h
  | cons a ts ih =>
    cases ts with
    | nil => rfl
    | cons b ts2 =>
      show joinSpace (a :: b :: (ts2 ++ [t])) = a ++ " " ++ joinSpace (b :: ts2) ++ " " ++ t
      rw [joinSpace_cons_cons, show b :: (ts2 ++ [t]) = (b :: ts2) ++ [t] from rfl,
        ih (List.cons_ne_nil b ts2)]
      simp [String.append_assoc]

lemma joinSpace_length_pos (ts : List String) (hne : ts ≠ [])
    (h : ∀ s ∈ ts, isBlankText s = false) : (joinSpace ts).length ≠ 0 := by
  cases ts with
  | nil => exact absurd rfl hne
  | cons a ts2 =>
    cases ts2 with
    | nil =>
      exact isBlankText_false_length a (h a (List.mem_cons_self a []))
    | cons b ts3 =>
      rw [joinSpace_cons_cons, String.length_append, String.length_append]
      have := isBlankText_false_length a (h a (by simp))
      omega

lemma joinSpace_ne_empty (ts : List String) (hne : ts ≠ [])
    (h : ∀ s ∈ ts, isBlankText s = false) : joinSpace ts ≠ "" := by
  intro hcontra
  have := joinSpace_length_pos ts hne h
  rw [hcontra] at this
  exact this rfl

lemma appendAll_append_singleton (st : TranscriberState) (ts : List (String × ℚ))
    (p : String × ℚ) :
    appendAll st (ts ++ [p]) = update_transcript (appendAll st ts) p.1 p.2 := by
  simp [appendAll, List.foldl_append]

lemma appendAll_spec (ts : List (String × ℚ))
    (h : ∀ p ∈ ts, isBlankText p.1 = false) :
    (appendAll initialTranscriberState ts).fullTranscript = joinSpace (ts.map Prod.fst)
    ∧ (appendAll initialTranscriberState ts).chunks = ts.drop (ts.length - MAX_CHUNKS) := by
  induction ts using List.reverseRecOn with
  | nil => exact ⟨rfl, rfl⟩
  | append_singleton ts p ih =>
    have hts : ∀ q ∈ ts, isBlankText q.1 = false := fun q hq => h q (by simp [hq])
    have hp : isBlankText p.1 = false := h p (by simp)
    have ihs := ih hts
    rw [appendAll_append_singleton]
    unfold update_transcript
    rw [hp]
    simp only [Bool.false_eq_true, if_false]
    constructor
    · cases hts0 : ts with
      | nil =>
        subst hts0
        simp [appendAll, initialTranscriberState, joinSpace]
      | cons q ts2 =>
        have hne : ts ≠ [] := by simp [hts0]
        have hmne : ts.map Prod.fst ≠ [] := by simp [hts0]
        have hfne : (appendAll initialTranscriberState ts).fullTranscript ≠ "" := by
          rw [ihs.1]
          exact joinSpace_ne_empty _ hmne (by
            intro s hs
            rcases List.mem_map.mp hs with ⟨q2, hq2, rfl⟩
            exact hts q2 hq2)
        rw [← hts0] at *
        simp only [hfne, if_pos, ne_eq, not_false_iff, if_true]
        rw [ihs.1, List.map_append, List.map_singleton,
          joinSpace_append_singleton _ _ hmne]
    · rw [ihs.2]
      have hM : MAX_CHUNKS = 1000 := rfl
      by_cases hlen : ts.length < MAX_CHUNKS
      · have hdrop : ts.length - MAX_CHUNKS = 0 := by omega
        have hdrop2 : (ts ++ [p]).length - MAX_CHUNKS = 0 := by
          simp only [List.length_append, List.length_singleton]; omega
        rw [hdrop, hdrop2, List.drop_zero, List.drop_zero, if_pos hlen]
      · have hcap : (ts.drop (ts.length - MAX_CHUNKS)).length = MAX_CHUNKS := by
          rw [List.length_drop]; omega
        rw [hcap, if_neg (lt_irrefl MAX_CHUNKS)]
        rw [List.drop_drop, List.drop_append_of_le_length
          (show (ts ++ [p]).length - MAX_CHUNKS ≤ ts.length by
            simp only [List.length_append, List.length_singleton]; omega)]
        have harith : (ts ++ [p]).length - MAX_CHUNKS = ts.length - MAX_CHUNKS + 1 := by
          simp only [List.length_append, List.length_singleton]; omega
        rw [harith]

lemma joinSpace_replicate_a_length (n : Nat) :
    (joinSpace (List.replicate (n + 1) "a")).length = 2 * n + 1 := by
  induction n with
  | zero => rfl
  | succ k ih =>
    rw [List.replicate_succ, List.replicate_succ]
    rw [joinSpace_cons_cons, String.length_append, String.length_append]
    rw [← List.replicate_succ, ih]
    simp [String.length]
    omega

/-- C1 counterexample: append 1001 nonblank chunks; the ring evicts the oldest,
but the full transcript keeps the text of all 1001 chunks, so fullText no longer
equals the space-separated concatenation of the chunks still held. -/
theorem C1_counterexample :
    get_full_transcript (appendAll initialTranscriberState (List.replicate 1001 ("a", 0)))
      ≠ joinSpace (((appendAll initialTranscriberState
          (List.replicate 1001 ("a", 0))).chunks).map Prod.fst) := by
  have hblank : ∀ p ∈ List.replicate 1001 (("a", (0:ℚ))), isBlankText p.1 = false := by
    intro p hp
    rw [List.eq_of_mem_replicate hp]
    decide
  have hs := appendAll_spec (List.replicate 1001 ("a", 0)) hblank
  have hfull : get_full_transcript (appendAll initialTranscriberState
      (List.replicate 1001 ("a", 0))) = joinSpace (List.replicate 1001 "a") := by
    rw [get_full_transcript, hs.1, List.map_replicate]
  have hheld : ((appendAll initialTranscriberState
      (List.replicate 1001 ("a", 0))).chunks).map Prod.fst = List.replicate 1000 "a" := by
    rw [hs.2, List.drop_replicate, List.map_replicate]
    norm_num [MAX_CHUNKS]
  rw [hfull, hheld]
  intro hcontra
  have h1 := joinSpace_replicate_a_length 1000
  have h2 := joinSpace_replicate_a_length 999
  rw [hcontra] at h1
  rw [show (999 : Nat) + 1 = 1000 from rfl] at h2
  omega

/-- C1 amended: after any sequence of appended nonblank (text, timestamp) chunks
starting from a fresh store, fullText equals the space-separated concatenation of
all appended texts (so eviction never removes text from it), while the bounded
ring holds exactly the most recent MAX_CHUNKS = 1000 chunks; fullText therefore
concatenates exactly the chunks still held only as long as no eviction has
happened, and strictly extends them afterwards. -/
theorem C1_fulltext (ts : List (String × ℚ))
    (h : ∀ p ∈ ts, isBlankText p.1 = false) :
    get_full_transcript (appendAll initialTranscriberState ts)
      = joinSpace (ts.map Prod.fst)
    ∧ (appendAll initialTranscriberState ts).chunks = ts.drop (ts.length - MAX_CHUNKS) := by
  exact appendAll_spec ts h

/-- Witness for C1 at two concrete nonblank chunks, well below capacity. -/
theorem C1_fulltext_witness :
    (∀ p ∈ [("it", (0:ℚ)), ("depends", 1)], isBlankText p.1 = false)
    ∧ get_full_transcript (appendAll initialTranscriberState
        [("it", 0), ("depends", 1)]) = joinSpace ["it", "depends"] :=
  ⟨by decide, (C1_fulltext [("it", 0), ("depends", 1)] (by decide)).1⟩

lemma abs_tanh_lt_one (x : ℝ) : |Real.tanh x| < 1 := by
  rw [Real.tanh_eq_sinh_div_cosh, abs_div, abs_of_pos (Real.cosh_pos x),
    div_lt_one (Real.cosh_pos x), abs_lt]
  constructor
  · have h := Real.sinh_lt_cosh (-x)
    rw [Real.sinh_neg, Real.cosh_neg] at h
    linarith
  · exact Real.sinh_lt_cosh x

lemma abs_limited_le (y : ℝ) : |Real.tanh (y * 0.8) * 0.85| ≤ 0.85 := by
  rw [abs_mul, abs_of_pos (by norm_num : (0:ℝ) < 0.85)]
  have h := (abs_tanh_lt_one (y * 0.8)).le
  nlinarith [abs_nonneg (Real.tanh (y * 0.8))]

lemma foldr_max_le (l : List ℝ) (c : ℝ) (hc : 0 ≤ c) (h : ∀ x ∈ l, x ≤ c) :
    l.foldr max 0 ≤ c := by
  induction l with
  | nil => simpa using hc
  | cons a l ih =>
    simp only [List.foldr_cons]
    exact max_le (h a (by simp)) (ih (fun x hx => h x (by simp [hx])))

lemma mix_audio_streams_no_rescale (micAudio sysAudio : List ℝ) (micRatio sysRatio : ℝ)
    (hm : micAudio.length ≠ 0) (hs : sysAudio.length ≠ 0) :
    mix_audio_streams micAudio sysAudio micRatio sysRatio
      = (List.zipWith (fun a b => a * micRatio + b * sysRatio)
          (micAudio ++ List.replicate (max micAudio.length sysAudio.length - micAudio.length) 0)
          (sysAudio ++ List.replicate (max micAudio.length sysAudio.length - sysAudio.length) 0)).map
          (fun x => Real.tanh (x * 0.8) * 0.85) := by
  unfold mix_audio_streams
  rw [if_neg (by tauto), if_neg hm, if_neg hs]
  simp only []
  rw [if_neg ?hpeak]
  case hpeak =>
    intro hgt
    have hle : List.foldr max 0 (((List.zipWith (fun a b => a * micRatio + b * sysRatio)
        (micAudio ++ List.replicate (max micAudio.length sysAudio.length - micAudio.length) 0)
        (sysAudio ++ List.replicate (max micAudio.length sysAudio.length - sysAudio.length) 0)).map
        (fun x => Real.tanh (x * 0.8) * 0.85)).map (fun x => |x|)) ≤ 0.85 := by
      apply foldr_max_le _ _ (by norm_num)
      intro x hx
      rcases List.mem_map.mp hx with ⟨y, hy, rfl⟩
      rcases List.mem_map.mp hy with ⟨z, _, rfl⟩
      exact abs_limited_le z
    linarith

/-- C10: when both input streams are nonempty, every sample of the mixed output
has absolute value at most 0.85, the bound of the soft compression
tanh(x * 0.8) * 0.85; hence the peak never exceeds 0.95 and the final
0.95 / peak rescaling branch is unreachable: the mix equals the soft-compressed
weighted sum with no rescale. -/
theorem C10_mix_bound (micAudio sysAudio : List ℝ) (micRatio sysRatio : ℝ)
    (hm : micAudio ≠ []) (hs : sysAudio ≠ []) :
    (∀ x ∈ mix_audio_streams micAudio sysAudio micRatio sysRatio, |x| ≤ 0.85)
    ∧ mix_audio_streams micAudio sysAudio micRatio sysRatio
      = (List.zipWith (fun a b => a * micRatio + b * sysRatio)
          (micAudio ++ List.replicate (max micAudio.length sysAudio.length - micAudio.length) 0)
          (sysAudio ++ List.replicate (max micAudio.length sysAudio.length - sysAudio.length) 0)).map
          (fun x => Real.tanh (x * 0.8) * 0.85) := by
  have hm0 : micAudio.length ≠ 0 := by simpa [List.length_eq_zero] using hm
  have hs0 : sysAudio.length ≠ 0 := by simpa [List.length_eq_zero] using hs
  have heq := mix_audio_streams_no_rescale micAudio sysAudio micRatio sysRatio hm0 hs0
  refine ⟨?_, heq⟩
  intro x hx
  rw [heq] at hx
  rcases List.mem_map.mp hx with ⟨z, _, rfl⟩
  exact abs_limited_le z

/-- Witness for C10 at the concrete one-sample streams [1] and [1] with unit
ratios. -/
theorem C10_mix_bound_witness :
    ([1] : List ℝ) ≠ [] ∧ ∀ x ∈ mix_audio_streams [1] [1] 1 1, |x| ≤ 0.85 :=
  ⟨List.cons_ne_nil 1 [], (C10_mix_bound [1] [1] 1 1
    (List.cons_ne_nil 1 []) (List.cons_ne_nil 1 [])).1⟩

lemma linspace_length (a b : ℝ) (n : Nat) : (linspace a b n).length = n := by
  unfold linspace
  split
  · simp [*]
  · rw [List.length_map, List.length_range]

lemma linspace_getD (a b : ℝ) (n i : Nat) (h2 : 2 ≤ n) (hi : i < n) :
    (linspace a b n).getD i 0 = a + (b - a) * i / ((n : ℝ) - 1) := by
  have hn1 : ¬ n = 1 := by omega
  have heq : linspace a b n
      = (List.range n).map (fun j : ℕ => a + (b - a) * (j : ℝ) / ((n : ℝ) - 1)) := by
    unfold linspace
    rw [if_neg hn1]
  rw [heq, List.getD_eq_getElem _ _ (by rw [List.length_map, List.length_range]; exact hi),
    List.getElem_map, List.getElem_range]

lemma scaleSlice_length (l : List ℝ) (s : Nat) (f : List ℝ) (h : s + f.length ≤ l.length) :
    (scaleSlice l s f).length = l.length := by
  unfold scaleSlice
  simp only [List.length_append, List.length_take, List.length_zipWith, List.length_drop]
  omega

lemma scaleSlice_getD (l : List ℝ) (s : Nat) (f : List ℝ) (hsf : s + f.length ≤ l.length)
    (i : Nat) (hi : i < l.length) :
    (scaleSlice l s f).getD i 0
      = if s ≤ i ∧ i < s + f.length
          then l.getD i 0 * f.getD (i - s) 0
          else l.getD i 0 := by
  have hA : (l.take s).length = s := by
    simp only [List.length_take]
    omega
  have hB : (List.zipWith (fun v f => v * f) ((l.drop s).take f.length) f).length
      = f.length := by
    simp only [List.length_zipWith, List.length_take, List.length_drop]
    omega
  have hAB : (l.take s
      ++ List.zipWith (fun v f => v * f) ((l.drop s).take f.length) f).length
      = s + f.length := by
    simp only [List.length_append, hA, hB]
  have hTot : ((l.take s ++ List.zipWith (fun v f => v * f) ((l.drop s).take f.length) f)
      ++ l.drop (s + f.length)).length = l.length := by
    simp only [List.length_append, hA, hB, List.length_drop]
    omega
  have hi2 : i < (scaleSlice l s f).length := by
    rw [scaleSlice_length l s f hsf]
    exact hi
  rw [List.getD_eq_getElem _ _ hi2]
  show ((l.take s ++ List.zipWith (fun v f => v * f) ((l.drop s).take f.length) f)
      ++ l.drop (s + f.length))[i] = _
  rcases Nat.lt_or_ge i s with hcase | hcase
  · rw [if_neg (by omega), List.getElem_append, dif_pos (by omega),
      List.getElem_append, dif_pos (by omega), List.getElem_take,
      List.getD_eq_getElem _ _ hi]
  · rcases Nat.lt_or_ge i (s + f.length) with hcase2 | hcase2
    · rw [if_pos ⟨hcase, hcase2⟩, List.getElem_append, dif_pos (by omega),
        List.getElem_append, dif_neg (by omega), List.getElem_zipWith,
        List.getElem_take, List.getElem_drop]
      have hidx1 : i - (l.take s).length = i - s := by rw [hA]
      have hidx : s + (i - s) = i := by omega
      simp only [hidx1, hidx]
      rw [List.getD_eq_getElem _ _ hi,
        List.getD_eq_getElem _ _ (show i - s < f.length by omega)]
    · rw [if_neg (by omega), List.getElem_append, dif_neg (by omega),
        List.getElem_drop]
      have hidx1 : i - (l.take s
          ++ List.zipWith (fun v f => v * f) ((l.drop s).take f.length) f).length
          = i - (s + f.length) := by rw [hAB]
      have hidx : s + f.length + (i - (s + f.length)) = i := by omega
      simp only [hidx1, hidx]
      rw [List.getD_eq_getElem _ _ hi]

lemma fadeSamplesOf_two_mul_le (len sr : Nat) (ms : ℚ) :
    2 * fadeSamplesOf len sr ms ≤ len := by
  unfold fadeSamplesOf
  simp only []
  split <;> omega

lemma apply_crossfade_empty (sr : Nat) (ms : ℚ) : apply_crossfade [] sr ms = [] := rfl

lemma apply_crossfade_eq (audio : List ℝ) (sr : Nat) (ms : ℚ)
    (hne : audio.length ≠ 0) (hfs : fadeSamplesOf audio.length sr ms ≠ 0) :
    apply_crossfade audio sr ms
      = scaleSlice (scaleSlice audio 0 (linspace 0 1 (fadeSamplesOf audio.length sr ms)))
          (audio.length - fadeSamplesOf audio.length sr ms)
          (linspace 1 0 (fadeSamplesOf audio.length sr ms)) := by
  unfold apply_crossfade
  rw [if_neg hne]
  simp only []
  rw [if_neg hfs]

lemma apply_crossfade_fs_zero (audio : List ℝ) (sr : Nat) (ms : ℚ)
    (hfs : fadeSamplesOf audio.length sr ms = 0) :
    apply_crossfade audio sr ms = audio := by
  unfold apply_crossfade
  by_cases hne : audio.length = 0
  · rw [if_pos hne]
  · rw [if_neg hne]
    simp only []
    rw [if_pos hfs]

lemma apply_crossfade_length (audio : List ℝ) (sr : Nat) (ms : ℚ) :
    (apply_crossfade audio sr ms).length = audio.length := by
  by_cases hfs : fadeSamplesOf audio.length sr ms = 0
  · rw [apply_crossfade_fs_zero _ _ _ hfs]
  · by_cases hne : audio.length = 0
    · unfold apply_crossfade
      rw [if_pos hne]
    · rw [apply_crossfade_eq _ _ _ hne hfs]
      have h2 := fadeSamplesOf_two_mul_le audio.length sr ms
      have hlin1 : (linspace 0 1 (fadeSamplesOf audio.length sr ms)).length
          = fadeSamplesOf audio.length sr ms := linspace_length _ _ _
      have hlin2 : (linspace 1 0 (fadeSamplesOf audio.length sr ms)).length
          = fadeSamplesOf audio.length sr ms := linspace_length _ _ _
      have hinner : (scaleSlice audio 0
          (linspace 0 1 (fadeSamplesOf audio.length sr ms))).length = audio.length := by
        apply scaleSlice_length
        rw [hlin1]
        omega
      rw [scaleSlice_length _ _ _ (by rw [hinner, hlin2]; omega), hinner]

lemma apply_crossfade_getD (audio : List ℝ) (sr : Nat) (ms : ℚ)
    (hne : audio.length ≠ 0) (hfs : fadeSamplesOf audio.length sr ms ≠ 0)
    (i : Nat) (hi : i < audio.length) :
    (apply_crossfade audio sr ms).getD i 0
      = (if i < fadeSamplesOf audio.length sr ms
           then audio.getD i 0 * (linspace 0 1 (fadeSamplesOf audio.length sr ms)).getD i 0
           else audio.getD i 0)
        * (if audio.length - fadeSamplesOf audio.length sr ms ≤ i
           then (linspace 1 0 (fadeSamplesOf audio.length sr ms)).getD
               (i - (audio.length - fadeSamplesOf audio.length sr ms)) 0
           else 1) := by
  have h2 := fadeSamplesOf_two_mul_le audio.length sr ms
  rw [apply_crossfade_eq _ _ _ hne hfs]
  have hlin1 : (linspace 0 1 (fadeSamplesOf audio.length sr ms)).length
      = fadeSamplesOf audio.length sr ms := linspace_length _ _ _
  have hlin2 : (linspace 1 0 (fadeSamplesOf audio.length sr ms)).length
      = fadeSamplesOf audio.length sr ms := linspace_length _ _ _
  have hinner : (scaleSlice audio 0
      (linspace 0 1 (fadeSamplesOf audio.length sr ms))).length = audio.length := by
    apply scaleSlice_length
    rw [hlin1]
    omega
  rw [scaleSlice_getD _ _ _ (by rw [hinner, hlin2]; omega) i (by rw [hinner]; exact hi)]
  rw [scaleSlice_getD _ _ _ (by rw [hlin1]; omega) i hi]
  simp only [hlin1, hlin2, Nat.zero_add]
  by_cases hout : audio.length - fadeSamplesOf audio.length sr ms ≤ i
  · rw [if_pos ⟨hout, by omega⟩, if_pos hout,
      if_neg (by omega : ¬ (0 ≤ i ∧ i < fadeSamplesOf audio.length sr ms)),
      if_neg (by omega : ¬ i < fadeSamplesOf audio.length sr ms)]
  · rw [if_neg (by omega : ¬ (audio.length - fadeSamplesOf audio.length sr ms ≤ i
        ∧ i < audio.length - fadeSamplesOf audio.length sr ms
            + fadeSamplesOf audio.length sr ms)), if_neg hout, mul_one]
    by_cases hin : i < fadeSamplesOf audio.length sr ms
    · rw [if_pos ⟨Nat.zero_le i, hin⟩, if_pos hin]
      simp only [Nat.sub_zero]
    · rw [if_neg (by omega : ¬ (0 ≤ i ∧ i < fadeSamplesOf audio.length sr ms)),
        if_neg hin]

lemma linspace_zero_one_first (n : Nat) (hn : 0 < n) : (linspace 0 1 n).getD 0 0 = 0 := by
  rcases Nat.lt_or_ge n 2 with h | h
  · have hn1 : n = 1 := by omega
    subst hn1
    rfl
  · rw [linspace_getD _ _ _ _ h hn]
    norm_num

lemma linspace_zero_one_last (n : Nat) (hn : 2 ≤ n) : (linspace 0 1 n).getD (n - 1) 0 = 1 := by
  rw [linspace_getD _ _ _ _ hn (by omega)]
  have hcast : ((n - 1 : ℕ) : ℝ) = (n : ℝ) - 1 := by
    rw [Nat.cast_sub (by omega), Nat.cast_one]
  have hne : ((n : ℝ) - 1) ≠ 0 := by
    have : (2:ℝ) ≤ (n:ℝ) := by exact_mod_cast hn
    linarith
  rw [hcast]
  field_simp

lemma linspace_one_zero_last (n : Nat) (hn : 2 ≤ n) : (linspace 1 0 n).getD (n - 1) 0 = 0 := by
  rw [linspace_getD _ _ _ _ hn (by omega)]
  have hcast : ((n - 1 : ℕ) : ℝ) = (n : ℝ) - 1 := by
    rw [Nat.cast_sub (by omega), Nat.cast_one]
  have hne : ((n : ℝ) - 1) ≠ 0 := by
    have : (2:ℝ) ≤ (n:ℝ) := by exact_mod_cast hn
    linarith
  rw [hcast]
  field_simp

lemma apply_crossfade_last_zero (audio : List ℝ) (sr : Nat) (ms : ℚ)
    (hne : audio.length ≠ 0) (hfs2 : 2 ≤ fadeSamplesOf audio.length sr ms) :
    (apply_crossfade audio sr ms).getD (audio.length - 1) 0 = 0 := by
  have h2 := fadeSamplesOf_two_mul_le audio.length sr ms
  rw [apply_crossfade_getD audio sr ms hne (by omega) (audio.length - 1) (by omega)]
  rw [if_pos (by omega : audio.length - fadeSamplesOf audio.length sr ms ≤ audio.length - 1)]
  have hidx : audio.length - 1 - (audio.length - fadeSamplesOf audio.length sr ms)
      = fadeSamplesOf audio.length sr ms - 1 := by omega
  rw [hidx, linspace_one_zero_last _ hfs2, mul_zero]

/-- C9 counterexample: on the all-ones buffer of length 8 (fade length shrinks to
2), the last fade-sample of the output is 0, not full amplitude: the fade-out ramp
ends at factor 0, so the final output sample is silenced. -/
theorem C9_counterexample :
    (apply_crossfade (List.replicate 8 1) 24000 10).getD 7 0 = 0 ∧ (0 : ℝ) ≠ 1 := by
  constructor
  · have h := apply_crossfade_last_zero (List.replicate 8 (1:ℝ)) 24000 10
      (by simp) (by norm_num [fadeSamplesOf, show Int.toNat 240 = 240 from rfl])
    simpa using h
  · norm_num

/-- C9 amended: crossfade is a no-op on empty input; when the buffer length is at
most twice the nominal fade length the fade shrinks to a quarter of the buffer
length; the output length equals the input length; with a positive fade length the
first output sample is 0; and with fade length at least 2 the fade-in region is the
linear ramp i/(fs-1) ending at full amplitude at index fs-1, while the fade-out
region is the linear ramp 1 - j/(fs-1), ending with the LAST output sample equal to
0 (faded to silence) rather than full amplitude. -/
theorem C9_crossfade (audio : List ℝ) (sr : Nat) (ms : ℚ) (hne : audio ≠ []) :
    apply_crossfade [] sr ms = []
    ∧ (audio.length ≤ 2 * (⌊(ms * sr / 1000 : ℚ)⌋).toNat →
        fadeSamplesOf audio.length sr ms = audio.length / 4)
    ∧ (apply_crossfade audio sr ms).length = audio.length
    ∧ (0 < fadeSamplesOf audio.length sr ms →
        (apply_crossfade audio sr ms).getD 0 0 = 0)
    ∧ (2 ≤ fadeSamplesOf audio.length sr ms →
        (∀ i, i < fadeSamplesOf audio.length sr ms →
          (apply_crossfade audio sr ms).getD i 0
            = audio.getD i 0 * ((i : ℝ) / ((fadeSamplesOf audio.length sr ms : ℝ) - 1)))
        ∧ (apply_crossfade audio sr ms).getD (fadeSamplesOf audio.length sr ms - 1) 0
            = audio.getD (fadeSamplesOf audio.length sr ms - 1) 0
        ∧ (∀ i, audio.length - fadeSamplesOf audio.length sr ms ≤ i → i < audio.length →
            (apply_crossfade audio sr ms).getD i 0
              = audio.getD i 0
                * (1 - ((i - (audio.length - fadeSamplesOf audio.length sr ms) : ℕ) : ℝ)
                    / ((fadeSamplesOf audio.length sr ms : ℝ) - 1)))
        ∧ (apply_crossfade audio sr ms).getD (audio.length - 1) 0 = 0) := by
  have hlen0 : audio.length ≠ 0 := by simpa [List.length_eq_zero] using hne
  have h2 := fadeSamplesOf_two_mul_le audio.length sr ms
  refine ⟨apply_crossfade_empty sr ms, ?_, apply_crossfade_length audio sr ms, ?_, ?_⟩
  · intro hsh
    unfold fadeSamplesOf
    simp only []
    rw [if_pos hsh]
  · intro hfs
    rw [apply_crossfade_getD audio sr ms hlen0 (by omega) 0 (by omega)]
    rw [if_pos hfs, linspace_zero_one_first _ hfs, mul_zero,
      if_neg (by omega : ¬ audio.length - fadeSamplesOf audio.length sr ms ≤ 0), zero_mul]
  · intro hfs2
    have hfadein : ∀ i, i < fadeSamplesOf audio.length sr ms →
        (apply_crossfade audio sr ms).getD i 0
          = audio.getD i 0 * ((i : ℝ) / ((fadeSamplesOf audio.length sr ms : ℝ) - 1)) := by
      intro i hi
      rw [apply_crossfade_getD audio sr ms hlen0 (by omega) i (by omega)]
      rw [if_pos hi, if_neg (by omega), mul_one,
        linspace_getD _ _ _ _ hfs2 hi]
      norm_num
    refine ⟨hfadein, ?_, ?_, apply_crossfade_last_zero audio sr ms hlen0 hfs2⟩
    · rw [hfadein _ (by omega)]
      have hcast : ((fadeSamplesOf audio.length sr ms - 1 : ℕ) : ℝ)
          = (fadeSamplesOf audio.length sr ms : ℝ) - 1 := by
        rw [Nat.cast_sub (by omega), Nat.cast_one]
      have hdne : ((fadeSamplesOf audio.length sr ms : ℝ) - 1) ≠ 0 := by
        have : (2:ℝ) ≤ (fadeSamplesOf audio.length sr ms : ℝ) := by exact_mod_cast hfs2
        linarith
      rw [hcast, div_self hdne, mul_one]
    · intro i hi1 hi2
      rw [apply_crossfade_getD audio sr ms hlen0 (by omega) i hi2]
      rw [if_neg (by omega : ¬ i < fadeSamplesOf audio.length sr ms), if_pos hi1,
        linspace_getD _ _ _ _ hfs2 (by omega)]
      have hring : (1 : ℝ) + (0 - 1)
          * ((i - (audio.length - fadeSamplesOf audio.length sr ms) : ℕ) : ℝ)
          / ((fadeSamplesOf audio.length sr ms : ℝ) - 1)
          = 1 - ((i - (audio.length - fadeSamplesOf audio.length sr ms) : ℕ) : ℝ)
          / ((fadeSamplesOf audio.length sr ms : ℝ) - 1) := by
        ring
      rw [hring]

/-- Witness for C9 on the all-ones buffer of length 8 at 24 kHz with the default
10 ms fade: the fade length is 2 and the first output sample is 0. -/
theorem C9_crossfade_witness :
    (List.replicate 8 (1:ℝ)) ≠ []
    ∧ 0 < fadeSamplesOf (List.replicate 8 (1:ℝ)).length 24000 10
    ∧ (apply_crossfade (List.replicate 8 (1:ℝ)) 24000 10).getD 0 0 = 0 :=
  ⟨by simp, by norm_num [fadeSamplesOf, show Int.toNat 240 = 240 from rfl],
    (C9_crossfade (List.replicate 8 (1:ℝ)) 24000 10 (by simp)).2.2.2.1
      (by norm_num [fadeSamplesOf, show Int.toNat 240 = 240 from rfl])⟩

lemma normalize_audio_level_eq (audio : List ℝ) (target : ℝ)
    (hne : audio.length ≠ 0) (hrms : 0 < rmsOf audio) :
    normalize_audio_level audio target
      = audio.map (fun x => Real.tanh (x * kneeFactor target (rmsOf audio) * 0.9) * 0.8) := by
  unfold rmsOf at hrms
  unfold normalize_audio_level
  rw [if_neg hne]
  simp only []
  rw [if_pos hrms, List.map_map]
  unfold kneeFactor rmsOf
  rfl

lemma normalize_all_zero (audio : List ℝ) (target : ℝ) (h : ∀ x ∈ audio, x = 0) :
    normalize_audio_level audio target = audio := by
  by_cases hne : audio.length = 0
  · unfold normalize_audio_level
    rw [if_pos hne]
  · have hsum : (audio.map (fun x => x ^ 2)).sum = 0 := by
      apply List.sum_eq_zero
      intro y hy
      rcases List.mem_map.mp hy with ⟨x, hx, rfl⟩
      rw [h x hx]
      ring
    unfold normalize_audio_level
    rw [if_neg hne]
    simp only []
    rw [hsum, zero_div, Real.sqrt_zero, if_neg (lt_irrefl 0)]

/-- C5 counterexample: the input with one sample 0.9 among 35 zeros has RMS
exactly 0.15 (the target), so the claimed behavior would return a buffer of RMS
0.15; the code additionally applies the soft limit tanh(0.9 x) * 0.8, and the
returned RMS is strictly below 0.15. -/
theorem C5_counterexample :
    rmsOf (normalize_audio_level ((0.9:ℝ) :: List.replicate 35 0) 0.15) ≠ 0.15 := by
  have hlen : ((0.9:ℝ) :: List.replicate 35 0).length = 36 := by simp
  have hsq : ((((0.9:ℝ) :: List.replicate 35 0).map (fun x => x ^ 2)).sum
      / (((0.9:ℝ) :: List.replicate 35 0).length : ℝ)) = (0.15:ℝ) ^ 2 := by
    simp only [List.map_cons, List.map_replicate, List.sum_cons, List.sum_replicate, hlen]
    norm_num
  have hrms : rmsOf ((0.9:ℝ) :: List.replicate 35 0) = 0.15 := by
    unfold rmsOf
    rw [hsq, Real.sqrt_sq (by norm_num)]
  have hknee : kneeFactor 0.15 (rmsOf ((0.9:ℝ) :: List.replicate 35 0)) = 1 := by
    rw [hrms]
    unfold kneeFactor
    norm_num
  have heq := normalize_audio_level_eq ((0.9:ℝ) :: List.replicate 35 0) 0.15
    (by rw [hlen]; norm_num) (by rw [hrms]; norm_num)
  rw [hknee] at heq
  rw [heq]
  have hmap : (((0.9:ℝ) :: List.replicate 35 0).map
      (fun x => Real.tanh (x * 1 * 0.9) * 0.8))
      = (Real.tanh 0.81 * 0.8) :: List.replicate 35 0 := by
    simp only [List.map_cons, List.map_replicate]
    norm_num [Real.tanh_zero]
  rw [hmap]
  have hsq2 : ((((Real.tanh 0.81 * 0.8) :: List.replicate 35 (0:ℝ)).map
      (fun x => x ^ 2)).sum
      / (((Real.tanh 0.81 * 0.8) :: List.replicate 35 (0:ℝ)).length : ℝ))
      = (Real.tanh 0.81 * (0.8 / 6)) ^ 2 := by
    simp only [List.map_cons, List.map_replicate, List.sum_cons, List.sum_replicate,
      List.length_cons, List.length_replicate]
    push_cast
    ring
  have ht := abs_tanh_lt_one 0.81
  unfold rmsOf
  rw [hsq2, Real.sqrt_sq_eq_abs, abs_mul]
  intro hcontra
  rw [show |(0.8:ℝ) / 6| = 0.8 / 6 by rw [abs_of_pos]; norm_num] at hcontra
  nlinarith [abs_nonneg (Real.tanh 0.81)]

/-- C5 amended: normalize returns the all-zero (rms = 0) and empty buffers
unchanged; on every other buffer it scales by the knee-compressed factor
kneeFactor(targetRMS, rms) and then applies the soft limit tanh(0.9 x) * 0.8
elementwise, so the returned RMS is in general below the target rather than
equal to it. -/
theorem C5_normalize (audio : List ℝ) (target : ℝ) :
    ((∀ x ∈ audio, x = 0) → normalize_audio_level audio target = audio)
    ∧ (audio.length ≠ 0 → 0 < rmsOf audio →
        normalize_audio_level audio target
          = audio.map (fun x =>
              Real.tanh (x * kneeFactor target (rmsOf audio) * 0.9) * 0.8)) :=
  ⟨normalize_all_zero audio target, normalize_audio_level_eq audio target⟩

/-- Witness for C5 at the all-zero one-sample buffer and at the one-sample
buffer holding 3. -/
theorem C5_normalize_witness :
    ((∀ x ∈ [(0:ℝ)], x = 0) ∧ normalize_audio_level [(0:ℝ)] 0.15 = [(0:ℝ)])
    ∧ (([(3:ℝ)].length ≠ 0 ∧ 0 < rmsOf [(3:ℝ)])
        ∧ normalize_audio_level [(3:ℝ)] 0.15
          = [(3:ℝ)].map (fun x =>
              Real.tanh (x * kneeFactor 0.15 (rmsOf [(3:ℝ)]) * 0.9) * 0.8)) := by
  have hr : 0 < rmsOf [(3:ℝ)] := by
    unfold rmsOf
    rw [show ((([(3:ℝ)].map (fun x => x ^ 2)).sum / ([(3:ℝ)].length : ℝ))) = 9 by norm_num]
    exact Real.sqrt_pos.mpr (by norm_num)
  exact ⟨⟨by simp, (C5_normalize [(0:ℝ)] 0.15).1 (by simp)⟩,
    ⟨⟨by simp, hr⟩, (C5_normalize [(3:ℝ)] 0.15).2 (by simp) hr⟩⟩

lemma mix_right_empty (l : List ℝ) (hl : l.length ≠ 0) (r s : ℝ) :
    mix_audio_streams l [] r s = l.map (fun x => x * r) := by
  unfold mix_audio_streams
  rw [if_neg (by simp [hl]), if_neg hl,
    if_pos (show ([] : List ℝ).length = 0 from rfl)]

lemma mic_only_path (micAudio sysAudio : List ℝ) (sr : Nat) (micRatio sysRatio : ℝ)
    (h : micAudio.length ≠ 0) :
    record_and_mix_chunk micAudio sysAudio true false sr micRatio sysRatio
      = some (apply_crossfade
          ((apply_crossfade micAudio sr 10).map (fun x => x * micRatio)) sr 5) := by
  have h0 : 0 < micAudio.length := Nat.pos_of_ne_zero h
  unfold record_and_mix_chunk
  rw [if_neg (by simp)]
  simp only [h0, eq_self_iff_true, true_and, and_true, if_true, Bool.false_eq_true,
    false_and, if_false]
  rw [mix_right_empty _ (by rw [apply_crossfade_length]; exact h) micRatio sysRatio]
  rw [if_pos (by rw [List.length_map, apply_crossfade_length]; exact h0)]

/-- C3 counterexample: with an all-ones 4-sample microphone chunk, a failed
system stream and unit mic ratio, the code produces [0, 1, 1, 1] (crossfade,
scale, final 5 ms crossfade — no normalization), while the claimed
normalize-then-crossfade-then-scale value has tanh(0.135) * 0.8 in the interior
positions, which is strictly below 1. -/
theorem C3_counterexample :
    record_and_mix_chunk (List.replicate 4 1) [] true false 24000 1 1
      ≠ some ((apply_crossfade (normalize_audio_level (List.replicate 4 1) 0.15)
          24000 10).map (fun x => x * 1)) := by
  have hfs10 : fadeSamplesOf 4 24000 10 = 1 := by
    norm_num [fadeSamplesOf, show Int.toNat 240 = 240 from rfl]
  have hfs5 : fadeSamplesOf 4 24000 5 = 1 := by
    norm_num [fadeSamplesOf, show Int.toNat 120 = 120 from rfl]
  have hlin01 : linspace 0 1 1 = [0] := by simp [linspace]
  have hlin10 : linspace 1 0 1 = [1] := by simp [linspace]
  have hcf : ∀ a b c d : ℝ, apply_crossfade [a, b, c, d] 24000 10 = [a * 0, b, c, d * 1] := by
    intro a b c d
    rw [apply_crossfade_eq _ _ _ (by simp) (by simp [hfs10])]
    simp only [List.length_cons, List.length_nil, hfs10, hlin01, hlin10]
    unfold scaleSlice
    simp [List.take, List.drop]
  have hcf5 : ∀ a b c d : ℝ, apply_crossfade [a, b, c, d] 24000 5 = [a * 0, b, c, d * 1] := by
    intro a b c d
    rw [apply_crossfade_eq _ _ _ (by simp) (by simp [hfs5])]
    simp only [List.length_cons, List.length_nil, hfs5, hlin01, hlin10]
    unfold scaleSlice
    simp [List.take, List.drop]
  have hrep : (List.replicate 4 (1:ℝ)) = [1, 1, 1, 1] := by
    simp [List.replicate]
  have hcode : record_and_mix_chunk (List.replicate 4 1) [] true false 24000 1 1
      = some [0, 1, 1, 1] := by
    rw [mic_only_path _ _ _ _ _ (by simp), hrep, hcf]
    norm_num [hcf5]
  have hrms : rmsOf (List.replicate 4 (1:ℝ)) = 1 := by
    unfold rmsOf
    have hv : (((List.replicate 4 (1:ℝ)).map (fun x => x ^ 2)).sum
        / ((List.replicate 4 (1:ℝ)).length : ℝ)) = 1 := by
      simp
      norm_num
    rw [hv]
    exact Real.sqrt_one
  have hknee : kneeFactor 0.15 (rmsOf (List.replicate 4 (1:ℝ))) = 0.15 := by
    rw [hrms]
    unfold kneeFactor
    norm_num
  have hclaim : (apply_crossfade (normalize_audio_level (List.replicate 4 1) 0.15)
      24000 10).map (fun x => x * 1)
      = [0, Real.tanh 0.135 * 0.8, Real.tanh 0.135 * 0.8, Real.tanh 0.135 * 0.8] := by
    rw [normalize_audio_level_eq _ _ (by simp) (by rw [hrms]; norm_num), hknee]
    rw [hrep]
    have hmapped : ([(1:ℝ), 1, 1, 1].map (fun x => Real.tanh (x * 0.15 * 0.9) * 0.8))
        = [Real.tanh 0.135 * 0.8, Real.tanh 0.135 * 0.8, Real.tanh 0.135 * 0.8,
           Real.tanh 0.135 * 0.8] := by
      norm_num
    rw [hmapped, hcf]
    norm_num
  rw [hcode, hclaim]
  intro hcontra
  simp only [Option.some.injEq, List.cons.injEq] at hcontra
  have h1 : (1:ℝ) = Real.tanh 0.135 * 0.8 := hcontra.2.1
  have ht := abs_tanh_lt_one 0.135
  have ht2 : Real.tanh 0.135 ≤ |Real.tanh 0.135| := le_abs_self _
  nlinarith

/-- C3 amended: in a cycle where the microphone recording succeeds and the
system recording fails, the mixed output handed downstream equals the 10 ms
crossfaded microphone signal scaled by mic ratio, followed by the final 5 ms
crossfade; no RMS normalization is applied anywhere on this path. -/
theorem C3_mic_only (micAudio sysAudio : List ℝ) (sr : Nat) (micRatio sysRatio : ℝ)
    (h : micAudio ≠ []) :
    record_and_mix_chunk micAudio sysAudio true false sr micRatio sysRatio
      = some (apply_crossfade
          ((apply_crossfade micAudio sr 10).map (fun x => x * micRatio)) sr 5) :=
  mic_only_path micAudio sysAudio sr micRatio sysRatio
    (by simpa [List.length_eq_zero] using h)

/-- Witness for C3 at the one-sample microphone chunk [1] with unit ratios. -/
theorem C3_mic_only_witness :
    ([1] : List ℝ) ≠ []
    ∧ record_and_mix_chunk [1] [] true false 24000 1 1
      = some (apply_crossfade ((apply_crossfade [1] 24000 10).map (fun x => x * 1)) 24000 5) :=
  ⟨List.cons_ne_nil 1 [], C3_mic_only [1] [] 24000 1 1 (List.cons_ne_nil 1 [])⟩

lemma zipWith_mul_replicate_zero (f : List ℝ) : ∀ k,
    List.zipWith (fun v w => v * w) (List.replicate k (0:ℝ)) f
      = List.replicate (min k f.length) 0 := by
  induction f with
  | nil => intro k; simp
  | cons a f ih =>
    intro k
    cases k with
    | zero => simp
    | succ k2 =>
      simp only [List.replicate_succ, List.zipWith_cons_cons, ih k2, List.length_cons,
        Nat.succ_min_succ, zero_mul]

lemma scaleSlice_replicate_zero (n s : Nat) (f : List ℝ) (h : s + f.length ≤ n) :
    scaleSlice (List.replicate n (0:ℝ)) s f = List.replicate n 0 := by
  unfold scaleSlice
  rw [List.take_replicate, List.drop_replicate, List.take_replicate, List.drop_replicate,
    zipWith_mul_replicate_zero]
  rw [← List.replicate_add, ← List.replicate_add]
  congr 1
  omega

lemma apply_crossfade_replicate_zero (n sr : Nat) (ms : ℚ) :
    apply_crossfade (List.replicate n (0:ℝ)) sr ms = List.replicate n 0 := by
  by_cases hne : n = 0
  · subst hne
    rfl
  · by_cases hfs : fadeSamplesOf n sr ms = 0
    · exact apply_crossfade_fs_zero _ _ _ (by rw [List.length_replicate]; exact hfs)
    · rw [apply_crossfade_eq _ _ _ (by rw [List.length_replicate]; exact hne)
        (by rw [List.length_replicate]; exact hfs)]
      have h2 := fadeSamplesOf_two_mul_le n sr ms
      simp only [List.length_replicate]
      rw [scaleSlice_replicate_zero _ _ _ (by rw [linspace_length]; omega)]
      rw [scaleSlice_replicate_zero _ _ _ (by rw [linspace_length]; omega)]

lemma zipWith_mix_replicate_zero (r s : ℝ) (n : Nat) :
    List.zipWith (fun a b => a * r + b * s) (List.replicate n (0:ℝ)) (List.replicate n (0:ℝ))
      = List.replicate n 0 := by
  induction n with
  | zero => rfl
  | succ k ih =>
    simp only [List.replicate_succ, List.zipWith_cons_cons, ih, zero_mul, add_zero]

lemma foldr_max_replicate_zero (n : Nat) :
    (List.replicate n (0:ℝ)).foldr max 0 = 0 := by
  induction n with
  | zero => rfl
  | succ k ih => simp [List.replicate_succ, ih]

lemma mix_audio_streams_zero (n : Nat) (hn : n ≠ 0) (r s : ℝ) :
    mix_audio_streams (List.replicate n 0) (List.replicate n 0) r s
      = List.replicate n 0 := by
  unfold mix_audio_streams
  rw [if_neg (by simp [hn]), if_neg (by simp [hn]), if_neg (by simp [hn])]
  simp only [List.length_replicate, Nat.max_self, Nat.sub_self, List.replicate_zero,
    List.append_nil]
  rw [zipWith_mix_replicate_zero, List.map_replicate]
  have hz : Real.tanh ((0:ℝ) * 0.8) * 0.85 = 0 := by
    rw [zero_mul, Real.tanh_zero, zero_mul]
  rw [hz, List.map_replicate, abs_zero, foldr_max_replicate_zero,
    if_neg (by norm_num : ¬ (0.95:ℝ) < 0)]

lemma record_and_mix_zero (n sr : Nat) (hn : n ≠ 0) (r s : ℝ) :
    record_and_mix_chunk (List.replicate n 0) (List.replicate n 0) true true sr r s
      = some (List.replicate n 0) := by
  have h0 : 0 < (List.replicate n (0:ℝ)).length := by
    rw [List.length_replicate]
    omega
  unfold record_and_mix_chunk
  rw [if_neg (by simp)]
  simp only [h0, eq_self_iff_true, true_and, and_true, if_true]
  rw [apply_crossfade_replicate_zero, mix_audio_streams_zero n hn r s,
    apply_crossfade_replicate_zero]
  rw [if_pos (by rw [List.length_replicate]; omega)]

lemma sampleToInt16_zero : sampleToInt16 0 = 0 := by
  unfold sampleToInt16
  norm_num

lemma flatten_replicate_pair (n : Nat) :
    (List.replicate n ([0, 0] : List ℤ)).flatten = List.replicate (2 * n) 0 := by
  induction n with
  | zero => rfl
  | succ k ih =>
    rw [List.replicate_succ, List.flatten_cons, ih,
      show 2 * (k + 1) = 2 * k + 1 + 1 by ring, List.replicate_succ, List.replicate_succ]
    rfl

lemma pcm16Bytes_replicate_zero (n : Nat) :
    pcm16Bytes (List.replicate n (0:ℝ)) = List.replicate (2 * n) 0 := by
  unfold pcm16Bytes
  rw [List.map_replicate, sampleToInt16_zero,
    show int16ToBytesLE 0 = [0, 0] from rfl, flatten_replicate_pair]

lemma cycle_all_zero (n sr : Nat) (hn : n ≠ 0) (r s : ℝ) :
    continuous_capture_cycle (List.replicate n 0) (List.replicate n 0) true true sr r s
      = some (List.replicate (2 * n) 0) := by
  unfold continuous_capture_cycle
  rw [record_and_mix_zero n sr hn r s]
  simp only [List.length_replicate]
  rw [if_pos (by omega), pcm16Bytes_replicate_zero]

/-- C4 counterexample: a cycle in which both streams record successfully and
every sample is zero still hands 8 bytes (2 bytes per sample, all zero) to the
dispatcher, not zero bytes: silence is not gated anywhere on the path. -/
theorem C4_counterexample :
    continuous_capture_cycle (List.replicate 4 0) (List.replicate 4 0) true true 24000 1 1
      = some (List.replicate 8 0)
    ∧ (List.replicate 8 (0:ℤ)).length ≠ 0 := by
  constructor
  · have h := cycle_all_zero 4 24000 (by norm_num) (1:ℝ) 1
    simpa using h
  · simp

/-- C4 amended: when both streams record successfully and are all-zero over n
samples, the mixed result is the all-zero buffer of length n and the Chunk
Dispatcher receives exactly 2n zero bytes for that cycle (silence is still
forwarded); no frame reaches the protocol layer in that cycle only because, with
an empty shared buffer, 2n is below the dispatch frame size, not because the
bytes were silent. -/
theorem C4_silent_cycle (n sr : Nat) (r s : ℝ) (F : Nat) (hn : 0 < n) (hF : 2 * n < F) :
    continuous_capture_cycle (List.replicate n 0) (List.replicate n 0) true true sr r s
      = some (List.replicate (2 * n) 0)
    ∧ (send_mixed_audio_data F [] (List.replicate (2 * n) 0)).1 = []
    ∧ (send_mixed_audio_data F [] (List.replicate (2 * n) 0)).2
        = List.replicate (2 * n) 0 := by
  refine ⟨cycle_all_zero n sr (by omega) r s, ?_, ?_⟩
  · unfold send_mixed_audio_data
    rw [drainFrames, dif_neg (by simp only [List.nil_append, List.length_replicate]; omega)]
  · unfold send_mixed_audio_data
    rw [drainFrames, dif_neg (by simp only [List.nil_append, List.length_replicate]; omega)]
    rw [List.nil_append]

/-- Witness for C4 at 4 samples per stream and the default 1024-byte dispatch
frame size. -/
theorem C4_silent_cycle_witness :
    0 < 4 ∧ 2 * 4 < 1024
    ∧ continuous_capture_cycle (List.replicate 4 0) (List.replicate 4 0) true true 24000 1 1
        = some (List.replicate (2 * 4) 0)
    ∧ (send_mixed_audio_data 1024 [] (List.replicate (2 * 4) 0)).1 = [] :=
  ⟨by decide, by decide,
    (C4_silent_cycle 4 24000 1 1 1024 (by decide) (by decide)).1,
    (C4_silent_cycle 4 24000 1 1 1024 (by decide) (by decide)).2.1⟩

end ItDepends
